import Mathlib
set_option autoImplicit false
/-!
Verification of the durable-execution engine specification for
aws-durable-execution-sdk-python-testing.

The repository ships the example handler `callback_concurrency.py`, its
integration test, and the web-server unit tests; the engine itself
(operation tree, replay scheduler, callback subsystem, parallel
combinator) and the web server are not part of the shown sources, so
they are modelled here from the specification (each such definition is
marked `Modelled from the spec:`).  The example handler and the
expected payloads are transcribed from
`src/examples/src/callback/callback_concurrency.py` and its test.
-/

/-- Payload values: JSON-ish data exchanged with callbacks and returned by
handlers.  Strings model serialized payloads (the example delivers JSON
text and the handler returns it verbatim). -/
inductive Val where
  | vstr : String → Val
  | vbool : Bool → Val
  | vnull : Val
  | vlist : List Val → Val
  | vdict : List (String × Val) → Val

/-- Modelled from the spec: operation status (§3 Operation). -/
inductive Status where
  | pending
  | running
  | completed
  | failed
deriving DecidableEq, Repr

/-- Modelled from the spec: operation type (§3 Operation).  Parallel
branches are CONTEXT scopes (§4.2), so two types suffice here. -/
inductive OpType where
  | context
  | callback
deriving DecidableEq, Repr

/-- A status is terminal iff it is COMPLETED or FAILED. -/
def Status.isTerminal : Status → Bool
  | .completed => true
  | .failed => true
  | _ => false

/-- Modelled from the spec: the per-node attributes of an Operation
(§3): name, type, status, result (present iff COMPLETED), failure
reason (present iff FAILED), and for callbacks the persisted absolute
timeout deadline (§4.3). -/
structure OpData where
  name : String
  typ : OpType
  status : Status
  result : Option Val
  failure : Option String
  deadline : Option Nat

mutual
/-- Modelled from the spec: one node of the operation tree (§3) with its
ordered children. -/
inductive Op where
  | node : OpData → OpList → Op
/-- Ordered sibling list of operations (insertion order = structural
position, §3). -/
inductive OpList where
  | nil : OpList
  | cons : Op → OpList → OpList
end

/-- The data of an operation node. -/
def Op.data : Op → OpData
  | .node d _ => d

/-- The children of an operation node. -/
def Op.children : Op → OpList
  | .node _ cs => cs

/-- Number of operations in a sibling list (not recursing into children). -/
def OpList.length : OpList → Nat
  | .nil => 0
  | .cons _ r => 1 + OpList.length r

/-- Names of the operations in a sibling list. -/
def namesOfL : OpList → List String
  | .nil => []
  | .cons (.node d _) r => d.name :: namesOfL r

/-- The sibling list is empty. -/
def isNilL : OpList → Bool
  | .nil => true
  | _ => false

/-- All operations in a sibling list are terminal. -/
def allTerminal : OpList → Bool
  | .nil => true
  | .cons (.node d _) r => d.status.isTerminal && allTerminal r

/-- Outcome of running one scope of handler code to quiescence:
it returned a value, raised a failure, or is suspended on a pending
callback (§4.5). -/
inductive SOut where
  | done : Val → SOut
  | failed : String → SOut
  | susp : SOut

/-- Modelled from the spec: the handler language.  A handler is a
deterministic program over the Durable Context surface (§4.2):
`ret`/`fail` end the current scope, `suspend` suspends it,
`createCallback name timeoutSeconds k` registers a CALLBACK operation
and blocks on its result (continuing with `k result` once delivered),
and `scope name body k` registers a nested CONTEXT operation running
`body`, continuing with the scope's outcome so that sibling scopes can
proceed while one is suspended (cooperative scheduling, §5).  The
parallel combinator is defined below on top of `scope`. -/
inductive Prog where
  | ret : Val → Prog
  | fail : String → Prog
  | suspend : Prog
  | createCallback : String → Nat → (Val → Prog) → Prog
  | scope : String → Prog → (SOut → Prog) → Prog

/-- Modelled from the spec: one replay pass of the engine over one scope
(§4.1, §4.5).  `now` is the logical current time, `used` the names of
sibling operations already matched in this scope, `rest` the recorded
children of the scope not yet matched.  Replay matching is
positional: the next recorded child must agree in name and type with
what the code attempts (`ReplayMismatchError` otherwise).  A recorded
terminal operation replays its recorded result or failure without side
effects; a pending callback past its persisted absolute deadline fails
with a timeout; a fresh operation is created PENDING (callback) or run
in place (context).  A CONTEXT node completes only once its scope
function returned and all children are terminal (§4.1); otherwise the
mismatch is a fatal non-determinism error (§3). -/
def runP (now : Nat) : Prog → List String → OpList → SOut × OpList
  | .ret v, _, rest => (.done v, rest)
  | .fail r, _, rest => (.failed r, rest)
  | .suspend, _, rest => (.susp, rest)
  | .createCallback name timeout k, used, rest =>
    match rest with
    | .nil =>
      if timeout == 0 then
        (.failed "InvalidParameterValueException: timeout must be positive", .nil)
      else if used.contains name then
        (.failed "InvalidParameterValueException: duplicate operation name", .nil)
      else
        (.susp, .cons (.node ⟨name, .callback, .pending, none, none, some (now + timeout)⟩ .nil) .nil)
    | .cons (.node d cs) rest1 =>
      if d.name == name && d.typ == OpType.callback then
        match d.status with
        | .completed =>
          match d.result with
          | some v =>
            let r := runP now (k v) (name :: used) rest1
            (r.1, .cons (.node d cs) r.2)
          | none =>
            (.failed "ReplayMismatchError: completed callback without result",
             .cons (.node d cs) rest1)
        | .failed =>
          (.failed (d.failure.getD "CallbackError"), .cons (.node d cs) rest1)
        | .pending =>
          match d.deadline with
          | some dl =>
            if dl ≤ now then
              (.failed "TimeoutError",
               .cons (.node ⟨d.name, d.typ, .failed, d.result, some "TimeoutError", d.deadline⟩ cs) rest1)
            else
              (.susp, .cons (.node d cs) rest1)
          | none => (.susp, .cons (.node d cs) rest1)
        | .running => (.susp, .cons (.node d cs) rest1)
      else
        (.failed "ReplayMismatchError", .cons (.node d cs) rest1)
  | .scope name body k, used, rest =>
    match rest with
    | .nil =>
      if used.contains name then
        (.failed "InvalidParameterValueException: duplicate operation name", .nil)
      else
        let b := runP now body [] .nil
        match b.1 with
        | .done v =>
          if allTerminal b.2 then
            let r := runP now (k (.done v)) (name :: used) .nil
            (r.1, .cons (.node ⟨name, .context, .completed, some v, none, none⟩ b.2) r.2)
          else
            let r := runP now (k (.failed "NonDeterministicExecutionError")) (name :: used) .nil
            (r.1, .cons (.node ⟨name, .context, .failed, none, some "NonDeterministicExecutionError", none⟩ b.2) r.2)
        | .failed fr =>
          let r := runP now (k (.failed fr)) (name :: used) .nil
          (r.1, .cons (.node ⟨name, .context, .failed, none, some fr, none⟩ b.2) r.2)
        | .susp =>
          let r := runP now (k .susp) (name :: used) .nil
          (r.1, .cons (.node ⟨name, .context, .running, none, none, none⟩ b.2) r.2)
    | .cons (.node d cs) rest1 =>
      if d.name == name && d.typ == OpType.context then
        match d.status with
        | .completed =>
          match d.result with
          | some v =>
            let r := runP now (k (.done v)) (name :: used) rest1
            (r.1, .cons (.node d cs) r.2)
          | none =>
            (.failed "ReplayMismatchError: completed context without result",
             .cons (.node d cs) rest1)
        | .failed =>
          let r := runP now (k (.failed (d.failure.getD "OperationFailed"))) (name :: used) rest1
          (r.1, .cons (.node d cs) r.2)
        | _ =>
          let b := runP now body [] cs
          match b.1 with
          | .done v =>
            if allTerminal b.2 then
              let r := runP now (k (.done v)) (name :: used) rest1
              (r.1, .cons (.node ⟨d.name, d.typ, .completed, some v, none, d.deadline⟩ b.2) r.2)
            else
              let r := runP now (k (.failed "NonDeterministicExecutionError")) (name :: used) rest1
              (r.1, .cons (.node ⟨d.name, d.typ, .failed, none, some "NonDeterministicExecutionError", d.deadline⟩ b.2) r.2)
          | .failed fr =>
            let r := runP now (k (.failed fr)) (name :: used) rest1
            (r.1, .cons (.node ⟨d.name, d.typ, .failed, none, some fr, d.deadline⟩ b.2) r.2)
          | .susp =>
            let r := runP now (k .susp) (name :: used) rest1
            (r.1, .cons (.node ⟨d.name, d.typ, .running, none, none, d.deadline⟩ b.2) r.2)
      else
        (.failed "ReplayMismatchError", .cons (.node d cs) rest1)

/-- Modelled from the spec: execution status (§3 Execution). -/
inductive ExecStatus where
  | running
  | succeeded
  | failed
deriving DecidableEq, Repr

/-- Modelled from the spec: one durable invocation (§3 Execution): its
status, terminal result or failure payload, and the operation tree
(children of the implicit root scope). -/
structure Execution where
  status : ExecStatus
  result : Option Val
  failureReason : Option String
  tree : OpList

/-- The initial execution state: running, no recorded operations. -/
def Execution.init : Execution :=
  ⟨.running, none, none, .nil⟩

/-- Modelled from the spec: one engine pass (§4.5).  A terminal
execution is left untouched (it becomes terminal exactly once, §3);
otherwise the handler is re-executed from the start against the
recorded tree, and the outcome sets the execution status: a returned
value completes it, an uncaught failure fails it, a suspension leaves
it running awaiting external deliveries. -/
def runPass (now : Nat) (p : Prog) (e : Execution) : Execution :=
  match e.status with
  | .running =>
    let r := runP now p [] e.tree
    match r.1 with
    | .done v => ⟨.succeeded, some v, none, r.2⟩
    | .failed reason => ⟨.failed, none, some reason, r.2⟩
    | .susp => ⟨.running, none, none, r.2⟩
  | _ => e

/-- `k` engine passes at the same logical time (replays with no state
change in between). -/
def iteratePass (now : Nat) (p : Prog) : Nat → Execution → Execution
  | 0, e => e
  | Nat.succ n, e => iteratePass now p n (runPass now p e)

/-- Name of the CONTEXT scope of the branch at input index `i` of a
parallel combinator. -/
def branchName (i : Nat) : String :=
  "branch-" ++ toString i

/-- First failure among branch outcomes, by input index (deterministic
tie-break by branch input order, §3 ParallelResult). -/
def firstFailure : List SOut → Option String
  | [] => none
  | .failed r :: _ => some r
  | _ :: rest => firstFailure rest

/-- Some branch outcome is still suspended. -/
def anySusp : List SOut → Bool
  | [] => false
  | .susp :: _ => true
  | _ :: rest => anySusp rest

/-- Values of branch outcomes (all terminal and successful). -/
def outValues : List SOut → List Val
  | [] => []
  | .done v :: rest => v :: outValues rest
  | _ :: rest => outValues rest

/-- Modelled from the spec: aggregation of the parallel combinator
(§4.4).  If any branch is still in flight the combinator stays
suspended — a failed branch does not cancel its siblings, and the
parent CONTEXT is marked terminal only after every branch operation is
terminal.  Once all branches are terminal, the first-indexed failure
(if any) fails the aggregate; otherwise the results are collected in
branch input order. -/
def aggregateBranches (outs : List SOut) : Prog :=
  if anySusp outs then .suspend
  else
    match firstFailure outs with
    | some r => .fail r
    | none => .ret (.vlist (outValues outs))

/-- Builds the body of a parallel CONTEXT: one child CONTEXT scope per
branch function, in input order, each branch proceeding independently
(its suspension is recorded and its siblings still run), and finally
the aggregation of all branch outcomes. -/
def parAux (i : Nat) (branches : List Prog) (k : List SOut → Prog) : Prog :=
  match branches with
  | [] => k []
  | b :: bs => .scope (branchName i) b (fun o => parAux (i + 1) bs (fun os => k (o :: os)))

/-- Modelled from the spec: `context.parallel(functions, name)` (§4.2,
§4.4): registers a CONTEXT operation named `name`, runs every branch
function as a child CONTEXT scope, and continues with the per-branch
results in branch input order. -/
def parallel (name : String) (branches : List Prog) (k : List Val → Prog) : Prog :=
  .scope name (parAux 0 branches aggregateBranches)
    (fun o =>
      match o with
      | .done (.vlist vs) => k vs
      | .done v => k [v]
      | .failed r => .fail r
      | .susp => .suspend)

/-- First callback branch of the example handler
(`callback_concurrency.py`): creates callback `api-call-1` with a
30-second timeout and returns its result. -/
def callback_branch_1 : Prog :=
  .createCallback "api-call-1" 30 .ret

/-- Second callback branch of the example handler. -/
def callback_branch_2 : Prog :=
  .createCallback "api-call-2" 30 .ret

/-- Third callback branch of the example handler. -/
def callback_branch_3 : Prog :=
  .createCallback "api-call-3" 30 .ret

/-- The example handler of `callback_concurrency.py`: runs the three
callback branches under `context.parallel` named `parallel_callbacks`
and returns `{"results": results, "allCompleted": True}`. -/
def handler : Prog :=
  parallel "parallel_callbacks" [callback_branch_1, callback_branch_2, callback_branch_3]
    (fun results => .ret (.vdict [("results", .vlist results), ("allCompleted", .vbool true)]))

/-- A handler that creates one callback with a 30-second timeout and
blocks on its result (the callback configuration of the example
handler, `CallbackConfig(timeout=Duration.from_seconds(30))`). -/
def timeoutProbe : Prog :=
  .createCallback "api-call-1" 30 .ret

/-- Result of delivering a payload to one operation subtree: the
updated subtree, a duplicate delivery to an already-terminal callback,
or no callback with that token. -/
inductive DeliverRes where
  | updated : Op → DeliverRes
  | dup : DeliverRes
  | missing : DeliverRes

/-- Result of delivering a payload to a sibling list. -/
inductive DeliverResL where
  | updated : OpList → DeliverResL
  | dup : DeliverResL
  | missing : DeliverResL

mutual
/-- Modelled from the spec: delivery of an external callback result to
one subtree (§4.3).  The callback is addressed by its token (derived
from the name, stable across replays); the first delivery resolves a
non-terminal callback, later deliveries are duplicates. -/
def deliverOp (token : String) (pay : Except String Val) : Op → DeliverRes
  | .node d cs =>
    if d.name == token && d.typ == OpType.callback then
      if d.status.isTerminal then .dup
      else
        match pay with
        | .ok v => .updated (.node ⟨d.name, d.typ, .completed, some v, none, d.deadline⟩ cs)
        | .error r => .updated (.node ⟨d.name, d.typ, .failed, d.result, some r, d.deadline⟩ cs)
    else
      match deliverL token pay cs with
      | .updated cs2 => .updated (.node d cs2)
      | .dup => .dup
      | .missing => .missing
/-- Delivery to the first matching callback of a sibling forest. -/
def deliverL (token : String) (pay : Except String Val) : OpList → DeliverResL
  | .nil => .missing
  | .cons o r =>
    match deliverOp token pay o with
    | .updated o2 => .updated (.cons o2 r)
    | .dup => .dup
    | .missing =>
      match deliverL token pay r with
      | .updated r2 => .updated (.cons o r2)
      | .dup => .dup
      | .missing => .missing
end

/-- Modelled from the spec: the control-plane callback-delivery
boundary (§6, §7).  A delivery addressed to an unknown token is
rejected 404, one addressed to an already-terminal callback is
rejected 409 as a duplicate; neither reaches the workflow.  A
successful delivery records the payload on the callback operation. -/
def sendCallback (token : String) (pay : Except String Val) (e : Execution) :
    Except (Nat × String) Execution :=
  match deliverL token pay e.tree with
  | .updated t => .ok ⟨e.status, e.result, e.failureReason, t⟩
  | .dup => .error (409, "DuplicateCallbackError")
  | .missing => .error (404, "ResourceNotFoundException")

/-- Delivery helper for scenario runs: applies a successful delivery,
keeping the execution unchanged if the control plane rejected it. -/
def deliverOk (token : String) (pay : Except String Val) (e : Execution) : Execution :=
  match sendCallback token pay e with
  | .ok e2 => e2
  | .error _ => e

mutual
/-- First callback operation with the given token in a subtree
(preorder, matching the delivery search order). -/
def findCbOp (token : String) : Op → Option OpData
  | .node d cs =>
    if d.name == token && d.typ == OpType.callback then some d
    else findCbL token cs
/-- First callback operation with the given token in a sibling forest. -/
def findCbL (token : String) : OpList → Option OpData
  | .nil => none
  | .cons o r =>
    match findCbOp token o with
    | some d => some d
    | none => findCbL token r
end

mutual
/-- Number of CALLBACK operations with the given name in a subtree. -/
def countCbOp (n : String) : Op → Nat
  | .node d cs => (if d.name == n && d.typ == OpType.callback then 1 else 0) + countCbL n cs
/-- Number of CALLBACK operations with the given name in a forest. -/
def countCbL (n : String) : OpList → Nat
  | .nil => 0
  | .cons o r => countCbOp n o + countCbL n r
end

/-- The forward order on operation statuses: the only allowed
transitions are PENDING → RUNNING → {COMPLETED, FAILED} (monotone, no
leaving a terminal state, no other transitions). -/
def statusLe : Status → Status → Bool
  | .pending, _ => true
  | .running, .pending => false
  | .running, _ => true
  | .completed, .completed => true
  | .completed, _ => false
  | .failed, .failed => true
  | .failed, _ => false

/-- No duplicate names in a list. -/
def nodupB : List String → Bool
  | [] => true
  | x :: xs => decide (x ∉ xs) && nodupB xs

mutual
/-- Modelled from the spec: the per-node tree invariants (§3): a node
cannot be COMPLETED while any child is non-terminal, a CALLBACK node
has no children, and its children have pairwise-distinct names. -/
def opOk : Op → Bool
  | .node d cs =>
    (!(d.status == Status.completed) || allTerminal cs)
      && (!(d.typ == OpType.callback) || isNilL cs)
      && nodupB (namesOfL cs)
      && listOk cs
/-- All nodes of a forest satisfy the per-node invariants. -/
def listOk : OpList → Bool
  | .nil => true
  | .cons o r => opOk o && listOk r
end

/-- Modelled from the spec: the operation-tree invariants (§3): sibling
names are unique at every level and no node is COMPLETED while a child
is non-terminal. -/
def treeInv (l : OpList) : Bool :=
  nodupB (namesOfL l) && listOk l

mutual
/-- One tree evolves into another: same name and type at every
recorded position, statuses only move forward along
PENDING → RUNNING → {COMPLETED, FAILED}, and children again evolve. -/
def evolveOp : Op → Op → Bool
  | .node d cs, .node d2 cs2 =>
    d.name == d2.name && d.typ == d2.typ && statusLe d.status d2.status && evolveL cs cs2
/-- Forest evolution: recorded positions evolve pointwise; new
operations may only be appended after the recorded ones. -/
def evolveL : OpList → OpList → Bool
  | .nil, _ => true
  | .cons _ _, .nil => false
  | .cons o r, .cons o2 r2 => evolveOp o o2 && evolveL r r2
end

/-- The three facts maintained for the forest a scope produces:
all nodes satisfy the per-node invariants, top-level sibling names are
unique, and each top-level name either was already recorded (`R`) or
is fresh for the enclosing scope (not in `used`). -/
def InvTriple (used : List String) (R : List String) (t : OpList) : Prop :=
  listOk t = true ∧ nodupB (namesOfL t) = true ∧
    (∀ n, n ∈ namesOfL t → n ∈ R ∨ n ∉ used)

/-- JSON payload delivered to `api-call-1` in the integration test. -/
def payload1 : String := "\x7b\"id\": 1, \"data\": \"first\"\x7d"

/-- JSON payload delivered to `api-call-2` in the integration test. -/
def payload2 : String := "\x7b\"id\": 2, \"data\": \"second\"\x7d"

/-- JSON payload delivered to `api-call-3` in the integration test. -/
def payload3 : String := "\x7b\"id\": 3, \"data\": \"third\"\x7d"

/-- Applies a sequence of external callback deliveries, replaying the
engine after each delivery, with logical time advancing. -/
def runDeliveries (p : Prog) : Nat → List (String × Except String Val) → Execution → Execution
  | _, [], e => e
  | now, (tok, pay) :: ds, e => runDeliveries p (now + 1) ds (runPass now p (deliverOk tok pay e))

/-- The execution of the example handler after its first engine pass
(suspended on the three pending callbacks). -/
def startedExec : Execution :=
  runPass 0 handler Execution.init

/-- The integration-test scenario with arbitrary delivered payloads:
start the execution, then deliver the callback results in order
2, 1, 3, replaying the engine after each delivery. -/
def scenarioRun (v1 v2 v3 : Val) : Execution :=
  runDeliveries handler 1
    [("api-call-2", .ok v2), ("api-call-1", .ok v1), ("api-call-3", .ok v3)] startedExec

/-- Looks up the operation with a given name in a sibling list. -/
def findName : OpList → String → Option Op
  | .nil, _ => none
  | .cons (.node d cs) r, n =>
    if d.name == n then some (.node d cs) else findName r n

/-- Checks that every operation of a sibling list is a CONTEXT holding
exactly one CALLBACK child (the tree shape asserted by the integration
test for the children of `parallel_callbacks`). -/
def branchShape : OpList → Bool
  | .nil => true
  | .cons (.node d cs) r =>
    (d.typ == OpType.context
      && (match cs with
          | .cons (.node cd .nil) .nil => cd.typ == OpType.callback
          | _ => false))
    && branchShape r

/-- The expected final result of the example handler: the per-branch
results in branch input order, and the `allCompleted` flag. -/
def expectedResult (v1 v2 v3 : Val) : Option Val :=
  some (.vdict [("results", .vlist [v1, v2, v3]), ("allCompleted", .vbool true)])

/-- The scenario behind the first-failure-wins property: branch 2's
callback is rejected first, branch 1's is rejected later, branch 3's
succeeds; the engine replays after each delivery. -/
def failTwoScenario (r1 r2 : String) (v3 : Val) : Execution :=
  runDeliveries handler 1
    [("api-call-2", .error r2), ("api-call-1", .error r1), ("api-call-3", .ok v3)] startedExec

/-- The intermediate execution of the failure scenario after only
branch 2's callback has been rejected. -/
def failTwoAfterFirst (r2 : String) : Execution :=
  runDeliveries handler 1 [("api-call-2", .error r2)] startedExec

/-- The intermediate execution of the failure scenario after branch 2's
and then branch 1's callbacks have been rejected (branch 3 in flight). -/
def failTwoAfterSecond (r1 r2 : String) : Execution :=
  runDeliveries handler 1 [("api-call-2", .error r2), ("api-call-1", .error r1)] startedExec

/-- The status of the operation named `n` in a sibling list. -/
def statusOf (t : OpList) (n : String) : Option Status :=
  (findName t n).map (fun o => o.data.status)

/-- Modelled from the spec: the closed enumeration of exception kinds
the control-plane HTTP boundary maps to status codes (§6, and the
exception types imported by `server_test.py`); an uncaught exception
carries its Python class name. -/
inductive ExceptionKind where
  | invalidParameterValue
  | resourceNotFound
  | unknownRoute
  | illegalState
  | serializationError
  | internalServiceUnavailable
  | uncaught : String → ExceptionKind

/-- The exception class name reported in the error body's `Type` field. -/
def ExceptionKind.typeName : ExceptionKind → String
  | .invalidParameterValue => "InvalidParameterValueException"
  | .resourceNotFound => "ResourceNotFoundException"
  | .unknownRoute => "UnknownRouteError"
  | .illegalState => "IllegalStateException"
  | .serializationError => "SerializationError"
  | .internalServiceUnavailable => "InternalServiceException"
  | .uncaught cls => cls

/-- Modelled from the spec: the HTTP status code for each exception
kind (§6): 400 invalid parameter, 404 resource not found / unknown
route, 409 illegal state, 500 uncaught or serialization error, 503
internal service unavailability. -/
def ExceptionKind.statusCode : ExceptionKind → Nat
  | .invalidParameterValue => 400
  | .resourceNotFound => 404
  | .unknownRoute => 404
  | .illegalState => 409
  | .serializationError => 500
  | .internalServiceUnavailable => 503
  | .uncaught _ => 500

/-- An HTTP response of the control-plane web server
(`web.models.HTTPResponse`): status code, headers, JSON body. -/
structure HTTPResponse where
  status_code : Nat
  headers : List (String × String)
  body : Val

/-- Modelled from the spec:
`HTTPResponse.create_error_from_exception` — the uniform error
response: the status code determined by the exception kind, JSON
content type, and the body `{"Type": <class name>, "message": <text>}`
(format asserted by `test_http_response_create_error_from_exception`). -/
def HTTPResponse.create_error_from_exception (k : ExceptionKind) (msg : String) :
    HTTPResponse :=
  ⟨k.statusCode, [("Content-Type", "application/json")],
   .vdict [("Type", .vstr k.typeName), ("message", .vstr msg)]⟩

/-- Modelled from the spec: the route kinds of the control-plane web
server (§6 route table). -/
inductive RouteKind where
  | startExecution
  | getDurableExecution
  | callbackSuccess
  | callbackFailure
  | health

/-- Modelled from the spec: the callback-delivery routes (success and
failure) are the `BytesPayloadRoute`s: their request bodies are
uninterpreted bytes. -/
def RouteKind.isBytesPayload : RouteKind → Bool
  | .callbackSuccess => true
  | .callbackFailure => true
  | _ => false

/-- The request object handed to an endpoint handler: either the raw
request bytes (`HTTPRequest.from_raw_bytes`) or a JSON-decoded body
(`HTTPRequest.from_bytes`). -/
inductive HTTPRequest where
  | fromRawBytes : List Nat → HTTPRequest
  | fromParsed : Option Val → HTTPRequest

/-- The raw byte payload of a request, when it was parsed raw. -/
def HTTPRequest.rawBody : HTTPRequest → Option (List Nat)
  | .fromRawBytes b => some b
  | .fromParsed _ => none

/-- Modelled from the spec: how `RequestHandler._handle_request` builds
the request for the matched route: a `BytesPayloadRoute` receives the
raw request bytes unmodified, every other route receives the
JSON-decoded body (`decode` stands for the JSON decoding of the
serialization layer, out of scope §1). -/
def buildRequest (decode : List Nat → Option Val) (route : RouteKind) (body : List Nat) :
    HTTPRequest :=
  if route.isBytesPayload then .fromRawBytes body else .fromParsed (decode body)

/-- Python's `logging.INFO` level constant. -/
def logging_INFO : Nat := 20

/-- Modelled from the spec: `WebServiceConfig`, the immutable (frozen
dataclass) web-server configuration with its default values
(`test_web_service_config_default_values`). -/
structure WebServiceConfig where
  host : String := "localhost"
  port : Nat := 5000
  log_level : Nat := logging_INFO
  max_request_size : Nat := 10 * 1024 * 1024

/-- The configuration built with no arguments. -/
def defaultWebServiceConfig : WebServiceConfig := {}

/-- Modelled from the spec: attribute assignment on a frozen dataclass
instance raises `FrozenInstanceError` (an `AttributeError`) instead of
mutating the object (`test_web_service_config_frozen_dataclass`); no
updated configuration is ever produced. -/
def WebServiceConfig.setAttr (_c : WebServiceConfig) (_field : String) (_v : Nat) :
    Except String WebServiceConfig :=
  .error "AttributeError: cannot assign to field of frozen dataclass"

/-- A terminal execution is absorbing: once the execution is FAILED, a
further engine pass changes nothing (it becomes terminal exactly once). -/
theorem runPass_failed_absorbing (now : Nat) (p : Prog) (e : Execution)
    (h : e.status = .failed) : runPass now p e = e := by
  simp [runPass, h]

mutual
/-- A subtree with no callback for a token keeps having none,
whatever payload is offered. -/
theorem deliverOp_missing_stable (token : String) (pay pay2 : Except String Val) (o : Op)
    (h : deliverOp token pay o = .missing) : deliverOp token pay2 o = .missing := by
  cases o with
  | node d cs =>
    by_cases hg : (d.name == token && d.typ == OpType.callback) = true
    · simp only [deliverOp, hg, if_true] at h ⊢
      cases hterm : d.status.isTerminal with
      | true => simp [hterm] at h
      | false => cases pay <;> simp [hterm] at h
    · simp only [deliverOp, hg, if_false, Bool.false_eq_true] at h ⊢
      cases hd : deliverL token pay cs with
      | updated cs2 => rw [hd] at h; simp at h
      | dup => rw [hd] at h; simp at h
      | missing =>
        rw [deliverL_missing_stable token pay pay2 cs hd]
/-- A sibling forest with no callback for a token keeps having none. -/
theorem deliverL_missing_stable (token : String) (pay pay2 : Except String Val) (l : OpList)
    (h : deliverL token pay l = .missing) : deliverL token pay2 l = .missing := by
  cases l with
  | nil => simp [deliverL]
  | cons o r =>
    simp only [deliverL] at h ⊢
    cases ho : deliverOp token pay o with
    | updated o2 => rw [ho] at h; simp at h
    | dup => rw [ho] at h; simp at h
    | missing =>
      rw [ho] at h
      rw [deliverOp_missing_stable token pay pay2 o ho]
      cases hr : deliverL token pay r with
      | updated r2 => rw [hr] at h; simp at h
      | dup => rw [hr] at h; simp at h
      | missing =>
        rw [deliverL_missing_stable token pay pay2 r hr]
end

mutual
/-- If a delivery found no callback for the token in a subtree, there
is no callback with that token there. -/
theorem deliverOp_missing_find (token : String) (pay : Except String Val) (o : Op)
    (h : deliverOp token pay o = .missing) : findCbOp token o = none := by
  cases o with
  | node d cs =>
    by_cases hg : (d.name == token && d.typ == OpType.callback) = true
    · simp only [deliverOp, hg, if_true] at h
      cases hterm : d.status.isTerminal with
      | true => simp [hterm] at h
      | false => cases pay <;> simp [hterm] at h
    · simp only [deliverOp, hg, if_false, Bool.false_eq_true] at h
      simp only [findCbOp, hg, if_false, Bool.false_eq_true]
      cases hd : deliverL token pay cs with
      | updated cs2 => rw [hd] at h; simp at h
      | dup => rw [hd] at h; simp at h
      | missing => exact deliverL_missing_find token pay cs hd
/-- If a delivery found no callback for the token in a forest, there
is no callback with that token there. -/
theorem deliverL_missing_find (token : String) (pay : Except String Val) (l : OpList)
    (h : deliverL token pay l = .missing) : findCbL token l = none := by
  cases l with
  | nil => simp [findCbL]
  | cons o r =>
    simp only [deliverL] at h
    simp only [findCbL]
    cases ho : deliverOp token pay o with
    | updated o2 => rw [ho] at h; simp at h
    | dup => rw [ho] at h; simp at h
    | missing =>
      rw [ho] at h
      rw [deliverOp_missing_find token pay o ho]
      cases hr : deliverL token pay r with
      | updated r2 => rw [hr] at h; simp at h
      | dup => rw [hr] at h; simp at h
      | missing => exact deliverL_missing_find token pay r hr
end

mutual
/-- After a successful delivery into a subtree, a second delivery to
the same token is a duplicate. -/
theorem deliverOp_second_dup (token : String) (pay pay2 : Except String Val) (o o2 : Op)
    (h : deliverOp token pay o = .updated o2) : deliverOp token pay2 o2 = .dup := by
  cases o with
  | node d cs =>
    by_cases hg : (d.name == token && d.typ == OpType.callback) = true
    · simp only [deliverOp, hg, if_true] at h
      cases hterm : d.status.isTerminal with
      | true => simp [hterm] at h
      | false =>
        simp only [hterm, Bool.false_eq_true, if_false] at h
        cases pay with
        | ok v =>
          simp only [DeliverRes.updated.injEq] at h
          subst h
          simp [deliverOp, hg, Status.isTerminal]
        | error r =>
          simp only [DeliverRes.updated.injEq] at h
          subst h
          simp [deliverOp, hg, Status.isTerminal]
    · simp only [deliverOp, hg, if_false, Bool.false_eq_true] at h
      cases hd : deliverL token pay cs with
      | updated cs2 =>
        rw [hd] at h
        simp only [DeliverRes.updated.injEq] at h
        subst h
        simp only [deliverOp, hg, if_false, Bool.false_eq_true]
        rw [deliverL_second_dup token pay pay2 cs cs2 hd]
      | dup => rw [hd] at h; simp at h
      | missing => rw [hd] at h; simp at h
/-- After a successful delivery into a forest, a second delivery to
the same token is a duplicate. -/
theorem deliverL_second_dup (token : String) (pay pay2 : Except String Val) (l l2 : OpList)
    (h : deliverL token pay l = .updated l2) : deliverL token pay2 l2 = .dup := by
  cases l with
  | nil => simp [deliverL] at h
  | cons o r =>
    simp only [deliverL] at h
    cases ho : deliverOp token pay o with
    | updated o2 =>
      rw [ho] at h
      simp only [DeliverResL.updated.injEq] at h
      subst h
      simp only [deliverL]
      rw [deliverOp_second_dup token pay pay2 o o2 ho]
    | dup => rw [ho] at h; simp at h
    | missing =>
      rw [ho] at h
      cases hr : deliverL token pay r with
      | updated r2 =>
        rw [hr] at h
        simp only [DeliverResL.updated.injEq] at h
        subst h
        simp only [deliverL]
        rw [deliverOp_missing_stable token pay pay2 o ho]
        rw [deliverL_second_dup token pay pay2 r r2 hr]
      | dup => rw [hr] at h; simp at h
      | missing => rw [hr] at h; simp at h
end

mutual
/-- A successful delivery records the delivered payload as the result
of the (now COMPLETED) callback operation of the subtree. -/
theorem deliverOp_records (token : String) (v : Val) (o o2 : Op)
    (h : deliverOp token (.ok v) o = .updated o2) :
    (findCbOp token o2).map (fun d => (d.status, d.result)) =
      some (Status.completed, some v) := by
  cases o with
  | node d cs =>
    by_cases hg : (d.name == token && d.typ == OpType.callback) = true
    · simp only [deliverOp, hg, if_true] at h
      cases hterm : d.status.isTerminal with
      | true => simp [hterm] at h
      | false =>
        simp only [hterm, Bool.false_eq_true, if_false, DeliverRes.updated.injEq] at h
        subst h
        simp [findCbOp, hg]
    · simp only [deliverOp, hg, if_false, Bool.false_eq_true] at h
      cases hd : deliverL token (.ok v) cs with
      | updated cs2 =>
        rw [hd] at h
        simp only [DeliverRes.updated.injEq] at h
        subst h
        simp only [findCbOp, hg, if_false, Bool.false_eq_true]
        exact deliverL_records token v cs cs2 hd
      | dup => rw [hd] at h; simp at h
      | missing => rw [hd] at h; simp at h
/-- A successful delivery records the delivered payload as the result
of the callback operation of the forest. -/
theorem deliverL_records (token : String) (v : Val) (l l2 : OpList)
    (h : deliverL token (.ok v) l = .updated l2) :
    (findCbL token l2).map (fun d => (d.status, d.result)) =
      some (Status.completed, some v) := by
  cases l with
  | nil => simp [deliverL] at h
  | cons o r =>
    simp only [deliverL] at h
    cases ho : deliverOp token (.ok v) o with
    | updated o2 =>
      rw [ho] at h
      simp only [DeliverResL.updated.injEq] at h
      subst h
      have hrec := deliverOp_records token v o o2 ho
      simp only [findCbL]
      cases hf : findCbOp token o2 with
      | some d2 => rw [hf] at hrec; simpa using hrec
      | none => rw [hf] at hrec; simp at hrec
    | dup => rw [ho] at h; simp at h
    | missing =>
      rw [ho] at h
      cases hr : deliverL token (.ok v) r with
      | updated r2 =>
        rw [hr] at h
        simp only [DeliverResL.updated.injEq] at h
        subst h
        simp only [findCbL]
        rw [deliverOp_missing_find token (.ok v) o ho]
        exact deliverL_records token v r r2 hr
      | dup => rw [hr] at h; simp at h
      | missing => rw [hr] at h; simp at h
end

/-- C6: first delivery wins.  Once a delivery has resolved a callback
token, a second delivery addressed to that token is rejected at the
control-plane boundary with status 409 as a `DuplicateCallbackError`
and is never observed by the workflow (the rejection carries no state,
so the execution is unchanged), and the recorded result of the
callback is still the first delivered payload. -/
theorem duplicate_callback_delivery_rejected (token : String) (v : Val)
    (pay2 : Except String Val) (e e2 : Execution)
    (h : sendCallback token (.ok v) e = .ok e2) :
    sendCallback token pay2 e2 = .error (409, "DuplicateCallbackError") ∧
    (findCbL token e2.tree).map (fun d => (d.status, d.result)) =
      some (Status.completed, some v) := by
  simp only [sendCallback] at h
  cases hd : deliverL token (.ok v) e.tree with
  | updated t =>
    rw [hd] at h
    simp only [Except.ok.injEq] at h
    subst h
    constructor
    · simp only [sendCallback]
      rw [deliverL_second_dup token (.ok v) pay2 e.tree t hd]
    · exact deliverL_records token v e.tree t hd
  | dup => rw [hd] at h; simp at h
  | missing => rw [hd] at h; simp at h

/-- Witness for `duplicate_callback_delivery_rejected`: a single
pending callback resolved once, then a second delivery rejected. -/
theorem duplicate_callback_delivery_rejected_witness :
    (sendCallback "cb" (.ok (.vstr "first")) (⟨.running, none, none,
        .cons (.node ⟨"cb", .callback, .pending, none, none, some 30⟩ .nil) .nil⟩ : Execution) =
      .ok ⟨.running, none, none,
        .cons (.node ⟨"cb", .callback, .completed, some (.vstr "first"), none, some 30⟩ .nil) .nil⟩) ∧
    (sendCallback "cb" (.ok (.vstr "second")) (⟨.running, none, none,
        .cons (.node ⟨"cb", .callback, .completed, some (.vstr "first"), none, some 30⟩ .nil) .nil⟩ : Execution) =
      .error (409, "DuplicateCallbackError") ∧
    (findCbL "cb" (⟨.running, none, none,
        .cons (.node ⟨"cb", .callback, .completed, some (.vstr "first"), none, some 30⟩ .nil) .nil⟩ : Execution).tree).map
      (fun d => (d.status, d.result)) = some (Status.completed, some (.vstr "first"))) :=
  ⟨rfl,
   duplicate_callback_delivery_rejected "cb" (.vstr "first") (.ok (.vstr "second"))
     ⟨.running, none, none,
       .cons (.node ⟨"cb", .callback, .pending, none, none, some 30⟩ .nil) .nil⟩
     ⟨.running, none, none,
       .cons (.node ⟨"cb", .callback, .completed, some (.vstr "first"), none, some 30⟩ .nil) .nil⟩
     rfl⟩

/-- Replaying one scope against the tree it just produced, with no
intervening delivery and at the same logical time, reproduces the same
outcome and the same tree: replay matching re-enters every recorded
operation and creates nothing new. -/
theorem runP_idem (now : Nat) (p : Prog) : ∀ (used : List String) (rest : OpList),
    runP now p used (runP now p used rest).2 = runP now p used rest := by
  induction p with
  | ret v => intro used rest; rfl
  | fail r => intro used rest; rfl
  | suspend => intro used rest; rfl
  | createCallback name timeout k ih =>
    intro used rest
    cases rest with
    | nil =>
      by_cases ht : (timeout == 0) = true
      · simp [runP, ht]
      · by_cases hu : name ∈ used
        · simp [runP, ht, hu]
        · have htpos : 0 < timeout := by
            have := (Nat.beq_eq_true_eq timeout 0) ▸ ht
            omega
          have hnl : ¬ (now + timeout ≤ now) := by omega
          simp [runP, ht, hu, hnl]
    | cons o rest1 =>
      cases o with
      | node d cs =>
        by_cases hg : (d.name == name && d.typ == OpType.callback) = true
        · cases hs : d.status with
          | completed =>
            cases hr : d.result with
            | some v => simp [runP, hg, hs, hr, ih v]
            | none => simp [runP, hg, hs, hr]
          | failed => simp [runP, hg, hs]
          | pending =>
            cases hdl : d.deadline with
            | some dl =>
              by_cases hle : dl ≤ now
              · simp [runP, hg, hs, hdl, hle, Status.isTerminal]
              · simp [runP, hg, hs, hdl, hle]
            | none => simp [runP, hg, hs, hdl]
          | running => simp [runP, hg, hs]
        · simp [runP, hg]
  | scope name body k ihb ihk =>
    intro used rest
    cases rest with
    | nil =>
      by_cases hu : name ∈ used
      · simp [runP, hu]
      · rcases hrb : runP now body [] .nil with ⟨bo, bt⟩
        have hb2 : runP now body [] bt = (bo, bt) := by
          have := ihb [] .nil
          rw [hrb] at this
          simpa using this
        cases bo with
        | done v =>
          by_cases hterm : allTerminal bt = true
          · simp [runP, hu, hrb, hterm, ihk (.done v)]
          · simp [runP, hu, hrb, hterm, ihk (.failed "NonDeterministicExecutionError")]
        | failed fr =>
          simp [runP, hu, hrb, ihk (.failed fr)]
        | susp =>
          simp [runP, hu, hrb, hb2, ihk .susp]
    | cons o rest1 =>
      cases o with
      | node d cs =>
        by_cases hg : (d.name == name && d.typ == OpType.context) = true
        · cases hs : d.status with
          | completed =>
            cases hr : d.result with
            | some v => simp [runP, hg, hs, hr, ihk (.done v)]
            | none => simp [runP, hg, hs, hr]
          | failed =>
            simp [runP, hg, hs, ihk (.failed (d.failure.getD "OperationFailed"))]
          | pending =>
            rcases hrb : runP now body [] cs with ⟨bo, bt⟩
            have hb2 : runP now body [] bt = (bo, bt) := by
              have := ihb [] cs
              rw [hrb] at this
              simpa using this
            cases bo with
            | done v =>
              by_cases hterm : allTerminal bt = true
              · simp [runP, hg, hs, hrb, hterm, ihk (.done v)]
              · simp [runP, hg, hs, hrb, hterm, ihk (.failed "NonDeterministicExecutionError")]
            | failed fr =>
              simp [runP, hg, hs, hrb, ihk (.failed fr)]
            | susp =>
              simp [runP, hg, hs, hrb, hb2, ihk .susp]
          | running =>
            rcases hrb : runP now body [] cs with ⟨bo, bt⟩
            have hb2 : runP now body [] bt = (bo, bt) := by
              have := ihb [] cs
              rw [hrb] at this
              simpa using this
            cases bo with
            | done v =>
              by_cases hterm : allTerminal bt = true
              · simp [runP, hg, hs, hrb, hterm, ihk (.done v)]
              · simp [runP, hg, hs, hrb, hterm, ihk (.failed "NonDeterministicExecutionError")]
            | failed fr =>
              simp [runP, hg, hs, hrb, ihk (.failed fr)]
            | susp =>
              simp [runP, hg, hs, hrb, hb2, ihk .susp]
        · simp [runP, hg]

/-- A full engine pass is idempotent: replaying against the unchanged
tree (no intervening delivery, same logical time) reproduces the same
execution state bit for bit. -/
theorem runPass_idem (now : Nat) (p : Prog) (e : Execution) :
    runPass now p (runPass now p e) = runPass now p e := by
  cases he : e.status with
  | running =>
    rcases hr : runP now p [] e.tree with ⟨o, t⟩
    have ht : runP now p [] t = (o, t) := by
      have := runP_idem now p [] e.tree
      rw [hr] at this
      simpa using this
    cases o with
    | done v => simp [runPass, he, hr]
    | failed fr => simp [runPass, he, hr]
    | susp => simp [runPass, he, hr, ht]
  | succeeded => simp [runPass, he]
  | failed => simp [runPass, he]

/-- Any number of further replays after a pass leave the execution at
the result of that pass. -/
theorem iteratePass_stable (now : Nat) (p : Prog) (k : Nat) (e : Execution) :
    iteratePass now p k (runPass now p e) = runPass now p e := by
  induction k generalizing e with
  | zero => rfl
  | succ n ihn =>
    show iteratePass now p n (runPass now p (runPass now p e)) = runPass now p e
    rw [runPass_idem now p e]
    exact ihn e

/-- C3: replay idempotence and exactly-once callback creation.  For
any handler and any execution state, re-running the engine against the
unchanged, unresolved tree produces the identical execution — no new
side-effecting operations, identical tree shape; in particular, for
the example handler, after any number of replays the number of
CALLBACK operations created under each of the names `api-call-1..3`
equals 1. -/
theorem replay_creates_no_new_operations :
    (∀ (now : Nat) (p : Prog) (e : Execution),
        runPass now p (runPass now p e) = runPass now p e) ∧
    (∀ k : Nat,
        countCbL "api-call-1" (iteratePass 0 handler (k + 1) Execution.init).tree = 1 ∧
        countCbL "api-call-2" (iteratePass 0 handler (k + 1) Execution.init).tree = 1 ∧
        countCbL "api-call-3" (iteratePass 0 handler (k + 1) Execution.init).tree = 1) := by
  refine ⟨runPass_idem, ?_⟩
  intro k
  have h : iteratePass 0 handler (k + 1) Execution.init =
      runPass 0 handler Execution.init := by
    show iteratePass 0 handler k (runPass 0 handler Execution.init) =
      runPass 0 handler Execution.init
    exact iteratePass_stable 0 handler k Execution.init
  rw [h]
  exact ⟨rfl, rfl, rfl⟩

/-- The status order is reflexive. -/
theorem statusLe_refl (s : Status) : statusLe s s = true := by
  cases s <;> rfl

mutual
/-- Evolution is reflexive on subtrees. -/
theorem evolveOp_refl (o : Op) : evolveOp o o = true := by
  cases o with
  | node d cs => simp [evolveOp, statusLe_refl, evolveL_refl cs]
/-- Evolution is reflexive on forests. -/
theorem evolveL_refl (l : OpList) : evolveL l l = true := by
  cases l with
  | nil => rfl
  | cons o r => simp [evolveL, evolveOp_refl o, evolveL_refl r]
end

/-- Every engine pass only evolves the recorded forest: names and
types at recorded positions are unchanged, statuses only move forward
along the allowed transitions, and new operations are only appended. -/
theorem runP_evolve (now : Nat) (p : Prog) : ∀ (used : List String) (rest : OpList),
    evolveL rest (runP now p used rest).2 = true := by
  induction p with
  | ret v => intro used rest; exact evolveL_refl rest
  | fail r => intro used rest; exact evolveL_refl rest
  | suspend => intro used rest; exact evolveL_refl rest
  | createCallback name timeout k ih =>
    intro used rest
    cases rest with
    | nil => rfl
    | cons o rest1 =>
      cases o with
      | node d cs =>
        by_cases hg : (d.name == name && d.typ == OpType.callback) = true
        · cases hs : d.status with
          | completed =>
            cases hr : d.result with
            | some v => simp [runP, hg, hs, hr, evolveL, evolveOp_refl, ih]
            | none => simp [runP, hg, hs, hr, evolveL_refl]
          | failed => simp [runP, hg, hs, evolveL_refl]
          | pending =>
            cases hdl : d.deadline with
            | some dl =>
              by_cases hle : dl ≤ now
              · simp [runP, hg, hs, hdl, hle, evolveL, evolveOp, statusLe,
                      evolveL_refl]
              · simp [runP, hg, hs, hdl, hle, evolveL_refl]
            | none => simp [runP, hg, hs, hdl, evolveL_refl]
          | running => simp [runP, hg, hs, evolveL_refl]
        · simp [runP, hg, evolveL_refl]
  | scope name body k ihb ihk =>
    intro used rest
    cases rest with
    | nil => rfl
    | cons o rest1 =>
      cases o with
      | node d cs =>
        by_cases hg : (d.name == name && d.typ == OpType.context) = true
        · cases hs : d.status with
          | completed =>
            cases hr : d.result with
            | some v => simp [runP, hg, hs, hr, evolveL, evolveOp_refl, ihk]
            | none => simp [runP, hg, hs, hr, evolveL_refl]
          | failed => simp [runP, hg, hs, evolveL, evolveOp_refl, ihk]
          | pending =>
            rcases hrb : runP now body [] cs with ⟨bo, bt⟩
            have hbe : evolveL cs bt = true := by
              have := ihb [] cs
              rw [hrb] at this
              simpa using this
            cases bo with
            | done v =>
              by_cases hterm : allTerminal bt = true
              · simp [runP, hg, hs, hrb, hterm, evolveL, evolveOp, statusLe, hbe, ihk]
              · simp [runP, hg, hs, hrb, hterm, evolveL, evolveOp, statusLe, hbe, ihk]
            | failed fr =>
              simp [runP, hg, hs, hrb, evolveL, evolveOp, statusLe, hbe, ihk]
            | susp =>
              simp [runP, hg, hs, hrb, evolveL, evolveOp, statusLe, hbe, ihk]
          | running =>
            rcases hrb : runP now body [] cs with ⟨bo, bt⟩
            have hbe : evolveL cs bt = true := by
              have := ihb [] cs
              rw [hrb] at this
              simpa using this
            cases bo with
            | done v =>
              by_cases hterm : allTerminal bt = true
              · simp [runP, hg, hs, hrb, hterm, evolveL, evolveOp, statusLe, hbe, ihk]
              · simp [runP, hg, hs, hrb, hterm, evolveL, evolveOp, statusLe, hbe, ihk]
            | failed fr =>
              simp [runP, hg, hs, hrb, evolveL, evolveOp, statusLe, hbe, ihk]
            | susp =>
              simp [runP, hg, hs, hrb, evolveL, evolveOp, statusLe, hbe, ihk]
        · simp [runP, hg, evolveL_refl]

/-- Builds the per-node invariant from its conjuncts. -/
theorem opOk_mk (d2 : OpData) (cs2 : OpList)
    (h1 : d2.status = .completed → allTerminal cs2 = true)
    (h2 : d2.typ = .callback → cs2 = .nil)
    (h3 : nodupB (namesOfL cs2) = true)
    (h4 : listOk cs2 = true) : opOk (.node d2 cs2) = true := by
  have hA : (!(d2.status == Status.completed) || allTerminal cs2) = true := by
    by_cases h : d2.status = Status.completed
    · simp [h, h1 h]
    · simp [h]
  have hB : (!(d2.typ == OpType.callback) || isNilL cs2) = true := by
    by_cases h : d2.typ = OpType.callback
    · rw [h2 h]; simp [isNilL]
    · simp [h]
  simp [opOk, hA, hB, h3, h4]

/-- Splits the per-node invariant into its conjuncts. -/
theorem opOk_parts (d2 : OpData) (cs2 : OpList) (h : opOk (.node d2 cs2) = true) :
    (d2.status = .completed → allTerminal cs2 = true) ∧
    (d2.typ = .callback → cs2 = .nil) ∧
    nodupB (namesOfL cs2) = true ∧ listOk cs2 = true := by
  simp only [opOk, Bool.and_eq_true, Bool.or_eq_true, Bool.not_eq_true'] at h
  obtain ⟨⟨⟨hA, hB⟩, hC⟩, hD⟩ := h
  refine ⟨?_, ?_, hC, hD⟩
  · intro hst
    cases hA with
    | inl h0 => rw [hst] at h0; simp at h0
    | inr h0 => exact h0
  · intro ht
    cases hB with
    | inl h0 => rw [ht] at h0; simp at h0
    | inr h0 =>
      cases cs2 with
      | nil => rfl
      | cons a b => simp [isNilL] at h0

/-- Assembles the scope facts for a matched recorded head followed by
the forest the continuation produced. -/
theorem inv_cons_assemble (d2 : OpData) (cs2 : OpList) (t : OpList) (used R : List String)
    (hOk : opOk (.node d2 cs2) = true)
    (hT : InvTriple (d2.name :: used) R t)
    (hhead : d2.name ∉ R) :
    InvTriple used (d2.name :: R) (.cons (.node d2 cs2) t) := by
  obtain ⟨h1, h2, h3⟩ := hT
  have hnm : d2.name ∉ namesOfL t := by
    intro hc
    cases h3 _ hc with
    | inl h0 => exact hhead h0
    | inr h0 => exact h0 (List.mem_cons_self _ _)
  refine ⟨?_, ?_, ?_⟩
  · simp [listOk, hOk, h1]
  · simp [namesOfL, nodupB, hnm, h2]
  · intro n hn
    simp only [namesOfL, List.mem_cons] at hn
    cases hn with
    | inl h0 => exact .inl (by simp [h0])
    | inr h0 =>
      cases h3 _ h0 with
      | inl hr => exact .inl (List.mem_cons_of_mem _ hr)
      | inr hr => exact .inr (fun hc => hr (List.mem_cons_of_mem _ hc))

/-- Assembles the scope facts for a freshly created head (no recorded
siblings) followed by the forest the continuation produced. -/
theorem inv_cons_assemble_fresh (d2 : OpData) (cs2 : OpList) (t : OpList) (used : List String)
    (hOk : opOk (.node d2 cs2) = true)
    (hT : InvTriple (d2.name :: used) [] t)
    (hu : d2.name ∉ used) :
    InvTriple used [] (.cons (.node d2 cs2) t) := by
  obtain ⟨h1, h2, h3⟩ := hT
  have hnm : d2.name ∉ namesOfL t := by
    intro hc
    cases h3 _ hc with
    | inl h0 => exact absurd h0 (List.not_mem_nil _)
    | inr h0 => exact h0 (List.mem_cons_self _ _)
  refine ⟨?_, ?_, ?_⟩
  · simp [listOk, hOk, h1]
  · simp [namesOfL, nodupB, hnm, h2]
  · intro n hn
    simp only [namesOfL, List.mem_cons] at hn
    cases hn with
    | inl h0 => exact .inr (h0 ▸ hu)
    | inr h0 =>
      cases h3 _ h0 with
      | inl hr => exact absurd hr (List.not_mem_nil _)
      | inr hr => exact .inr (fun hc => hr (List.mem_cons_of_mem _ hc))

/-- Every engine pass preserves the operation-tree invariants of a
scope: all produced nodes satisfy the per-node invariants, sibling
names stay unique, and any new sibling name is fresh for the scope. -/
theorem runP_inv (now : Nat) (p : Prog) : ∀ (used : List String) (rest : OpList),
    nodupB (namesOfL rest) = true →
    listOk rest = true →
    (∀ n, n ∈ namesOfL rest → n ∉ used) →
    InvTriple used (namesOfL rest) (runP now p used rest).2 := by
  induction p with
  | ret v =>
    intro used rest h1 h2 h3
    exact ⟨h2, h1, fun n hn => .inl hn⟩
  | fail r =>
    intro used rest h1 h2 h3
    exact ⟨h2, h1, fun n hn => .inl hn⟩
  | suspend =>
    intro used rest h1 h2 h3
    exact ⟨h2, h1, fun n hn => .inl hn⟩
  | createCallback name timeout k ih =>
    intro used rest h1 h2 h3
    cases rest with
    | nil =>
      by_cases ht : (timeout == 0) = true
      · have htree : (runP now (Prog.createCallback name timeout k) used .nil).2 = .nil := by
          simp [runP, ht]
        rw [htree]
        exact ⟨rfl, rfl, fun n hn => absurd hn (List.not_mem_nil n)⟩
      · by_cases hu : name ∈ used
        · have htree : (runP now (Prog.createCallback name timeout k) used .nil).2 = .nil := by
            simp [runP, ht, hu]
          rw [htree]
          exact ⟨rfl, rfl, fun n hn => absurd hn (List.not_mem_nil n)⟩
        · have htree : (runP now (Prog.createCallback name timeout k) used .nil).2 =
              .cons (.node ⟨name, .callback, .pending, none, none, some (now + timeout)⟩ .nil)
                .nil := by
            simp [runP, ht, hu]
          rw [htree]
          refine ⟨rfl, rfl, ?_⟩
          intro n hn
          simp only [namesOfL, List.mem_cons] at hn
          rcases hn with h0 | h0
          · exact .inr (h0 ▸ hu)
          · exact absurd h0 (List.not_mem_nil n)
    | cons o rest1 =>
      cases o with
      | node d cs =>
        have h1p : d.name ∉ namesOfL rest1 ∧ nodupB (namesOfL rest1) = true := by
          have h1c := h1
          simp only [namesOfL, nodupB, Bool.and_eq_true, decide_eq_true_eq] at h1c
          exact h1c
        have h2p : opOk (.node d cs) = true ∧ listOk rest1 = true := by
          have h2c := h2
          simp only [listOk, Bool.and_eq_true] at h2c
          exact h2c
        obtain ⟨hdn, h1t⟩ := h1p
        obtain ⟨hOk, h2t⟩ := h2p
        by_cases hg : (d.name == name && d.typ == OpType.callback) = true
        · have hname : d.name = name := by
            have hgc := hg
            simp only [Bool.and_eq_true, beq_iff_eq] at hgc
            exact hgc.1
          have hpre : ∀ n, n ∈ namesOfL rest1 → n ∉ (name :: used) := by
            intro n hn hc
            rcases List.mem_cons.mp hc with h0 | h0
            · exact hdn (hname ▸ h0 ▸ hn)
            · exact h3 n (List.mem_cons_of_mem _ hn) h0
          cases hs : d.status with
          | completed =>
            cases hr : d.result with
            | some v =>
              have htree : (runP now (Prog.createCallback name timeout k) used
                  (.cons (.node d cs) rest1)).2 =
                  .cons (.node d cs) (runP now (k v) (name :: used) rest1).2 := by
                simp [runP, hg, hs, hr]
              rw [htree]
              have hT : InvTriple (d.name :: used) (namesOfL rest1)
                  (runP now (k v) (name :: used) rest1).2 := by
                rw [hname]
                exact ih v (name :: used) rest1 h1t h2t hpre
              exact inv_cons_assemble d cs _ used (namesOfL rest1) hOk hT hdn
            | none =>
              have htree : (runP now (Prog.createCallback name timeout k) used
                  (.cons (.node d cs) rest1)).2 = .cons (.node d cs) rest1 := by
                simp [runP, hg, hs, hr]
              rw [htree]
              exact ⟨h2, h1, fun n hn => .inl hn⟩
          | failed =>
            have htree : (runP now (Prog.createCallback name timeout k) used
                (.cons (.node d cs) rest1)).2 = .cons (.node d cs) rest1 := by
              simp [runP, hg, hs]
            rw [htree]
            exact ⟨h2, h1, fun n hn => .inl hn⟩
          | pending =>
            cases hdl : d.deadline with
            | some dl =>
              by_cases hle : dl ≤ now
              · have htree : (runP now (Prog.createCallback name timeout k) used
                    (.cons (.node d cs) rest1)).2 =
                    .cons (.node ⟨d.name, d.typ, .failed, d.result, some "TimeoutError",
                      d.deadline⟩ cs) rest1 := by
                  simp [runP, hg, hs, hdl, hle]
                rw [htree]
                have hp := opOk_parts d cs hOk
                have hOk2 : opOk (.node ⟨d.name, d.typ, .failed, d.result,
                    some "TimeoutError", d.deadline⟩ cs) = true := by
                  refine opOk_mk _ _ ?_ ?_ hp.2.2.1 hp.2.2.2
                  · intro h0; simp at h0
                  · intro h0; exact hp.2.1 h0
                refine ⟨?_, h1, fun n hn => .inl hn⟩
                simp [listOk, hOk2, h2t]
              · have htree : (runP now (Prog.createCallback name timeout k) used
                    (.cons (.node d cs) rest1)).2 = .cons (.node d cs) rest1 := by
                  simp [runP, hg, hs, hdl, hle]
                rw [htree]
                exact ⟨h2, h1, fun n hn => .inl hn⟩
            | none =>
              have htree : (runP now (Prog.createCallback name timeout k) used
                  (.cons (.node d cs) rest1)).2 = .cons (.node d cs) rest1 := by
                simp [runP, hg, hs, hdl]
              rw [htree]
              exact ⟨h2, h1, fun n hn => .inl hn⟩
          | running =>
            have htree : (runP now (Prog.createCallback name timeout k) used
                (.cons (.node d cs) rest1)).2 = .cons (.node d cs) rest1 := by
              simp [runP, hg, hs]
            rw [htree]
            exact ⟨h2, h1, fun n hn => .inl hn⟩
        · have htree : (runP now (Prog.createCallback name timeout k) used
              (.cons (.node d cs) rest1)).2 = .cons (.node d cs) rest1 := by
            simp [runP, hg]
          rw [htree]
          exact ⟨h2, h1, fun n hn => .inl hn⟩
  | scope name body k ihb ihk =>
    intro used rest h1 h2 h3
    cases rest with
    | nil =>
      by_cases hu : name ∈ used
      · have htree : (runP now (Prog.scope name body k) used .nil).2 = .nil := by
          simp [runP, hu]
        rw [htree]
        exact ⟨rfl, rfl, fun n hn => absurd hn (List.not_mem_nil n)⟩
      · rcases hrb : runP now body [] .nil with ⟨bo, bt⟩
        have hbT : InvTriple [] [] bt := by
          have := ihb [] .nil rfl rfl (fun n _ => List.not_mem_nil n)
          rw [hrb] at this
          simpa using this
        obtain ⟨bl1, bl2, _⟩ := hbT
        have hkT : ∀ x : SOut, InvTriple (name :: used) []
            (runP now (k x) (name :: used) .nil).2 :=
          fun x => ihk x (name :: used) .nil rfl rfl
            (fun n hn => absurd hn (List.not_mem_nil n))
        cases bo with
        | done v =>
          by_cases hterm : allTerminal bt = true
          · have htree : (runP now (Prog.scope name body k) used .nil).2 =
                .cons (.node ⟨name, .context, .completed, some v, none, none⟩ bt)
                  (runP now (k (.done v)) (name :: used) .nil).2 := by
              simp [runP, hu, hrb, hterm]
            rw [htree]
            refine inv_cons_assemble_fresh _ bt _ used ?_ (hkT (.done v)) hu
            refine opOk_mk _ _ (fun _ => hterm) ?_ bl2 bl1
            intro h0; simp at h0
          · have htree : (runP now (Prog.scope name body k) used .nil).2 =
                .cons (.node ⟨name, .context, .failed, none,
                  some "NonDeterministicExecutionError", none⟩ bt)
                  (runP now (k (.failed "NonDeterministicExecutionError"))
                    (name :: used) .nil).2 := by
              simp [runP, hu, hrb, hterm]
            rw [htree]
            refine inv_cons_assemble_fresh _ bt _ used ?_
              (hkT (.failed "NonDeterministicExecutionError")) hu
            refine opOk_mk _ _ ?_ ?_ bl2 bl1
            · intro h0; simp at h0
            · intro h0; simp at h0
        | failed fr =>
          have htree : (runP now (Prog.scope name body k) used .nil).2 =
              .cons (.node ⟨name, .context, .failed, none, some fr, none⟩ bt)
                (runP now (k (.failed fr)) (name :: used) .nil).2 := by
            simp [runP, hu, hrb]
          rw [htree]
          refine inv_cons_assemble_fresh _ bt _ used ?_ (hkT (.failed fr)) hu
          refine opOk_mk _ _ ?_ ?_ bl2 bl1
          · intro h0; simp at h0
          · intro h0; simp at h0
        | susp =>
          have htree : (runP now (Prog.scope name body k) used .nil).2 =
              .cons (.node ⟨name, .context, .running, none, none, none⟩ bt)
                (runP now (k .susp) (name :: used) .nil).2 := by
            simp [runP, hu, hrb]
          rw [htree]
          refine inv_cons_assemble_fresh _ bt _ used ?_ (hkT .susp) hu
          refine opOk_mk _ _ ?_ ?_ bl2 bl1
          · intro h0; simp at h0
          · intro h0; simp at h0
    | cons o rest1 =>
      cases o with
      | node d cs =>
        have h1p : d.name ∉ namesOfL rest1 ∧ nodupB (namesOfL rest1) = true := by
          have h1c := h1
          simp only [namesOfL, nodupB, Bool.and_eq_true, decide_eq_true_eq] at h1c
          exact h1c
        have h2p : opOk (.node d cs) = true ∧ listOk rest1 = true := by
          have h2c := h2
          simp only [listOk, Bool.and_eq_true] at h2c
          exact h2c
        obtain ⟨hdn, h1t⟩ := h1p
        obtain ⟨hOk, h2t⟩ := h2p
        by_cases hg : (d.name == name && d.typ == OpType.context) = true
        · have hname : d.name = name := by
            have hgc := hg
            simp only [Bool.and_eq_true, beq_iff_eq] at hgc
            exact hgc.1
          have hty : d.typ = OpType.context := by
            have hgc := hg
            simp only [Bool.and_eq_true, beq_iff_eq] at hgc
            exact hgc.2
          have hpre : ∀ n, n ∈ namesOfL rest1 → n ∉ (name :: used) := by
            intro n hn hc
            rcases List.mem_cons.mp hc with h0 | h0
            · exact hdn (hname ▸ h0 ▸ hn)
            · exact h3 n (List.mem_cons_of_mem _ hn) h0
          have hkT : ∀ x : SOut, InvTriple (d.name :: used) (namesOfL rest1)
              (runP now (k x) (name :: used) rest1).2 := by
            intro x
            rw [hname]
            exact ihk x (name :: used) rest1 h1t h2t hpre
          cases hs : d.status with
          | completed =>
            cases hr : d.result with
            | some v =>
              have htree : (runP now (Prog.scope name body k) used
                  (.cons (.node d cs) rest1)).2 =
                  .cons (.node d cs) (runP now (k (.done v)) (name :: used) rest1).2 := by
                simp [runP, hg, hs, hr]
              rw [htree]
              exact inv_cons_assemble d cs _ used (namesOfL rest1) hOk (hkT (.done v)) hdn
            | none =>
              have htree : (runP now (Prog.scope name body k) used
                  (.cons (.node d cs) rest1)).2 = .cons (.node d cs) rest1 := by
                simp [runP, hg, hs, hr]
              rw [htree]
              exact ⟨h2, h1, fun n hn => .inl hn⟩
          | failed =>
            have htree : (runP now (Prog.scope name body k) used
                (.cons (.node d cs) rest1)).2 =
                .cons (.node d cs)
                  (runP now (k (.failed (d.failure.getD "OperationFailed")))
                    (name :: used) rest1).2 := by
              simp [runP, hg, hs]
            rw [htree]
            exact inv_cons_assemble d cs _ used (namesOfL rest1) hOk
              (hkT (.failed (d.failure.getD "OperationFailed"))) hdn
          | pending =>
            rcases hrb : runP now body [] cs with ⟨bo, bt⟩
            have hp := opOk_parts d cs hOk
            have hbT : InvTriple [] (namesOfL cs) bt := by
              have := ihb [] cs hp.2.2.1 hp.2.2.2 (fun n _ => List.not_mem_nil n)
              rw [hrb] at this
              simpa using this
            obtain ⟨bl1, bl2, _⟩ := hbT
            cases bo with
            | done v =>
              by_cases hterm : allTerminal bt = true
              · have htree : (runP now (Prog.scope name body k) used
                    (.cons (.node d cs) rest1)).2 =
                    .cons (.node ⟨d.name, d.typ, .completed, some v, none, d.deadline⟩ bt)
                      (runP now (k (.done v)) (name :: used) rest1).2 := by
                  simp [runP, hg, hs, hrb, hterm]
                rw [htree]
                refine inv_cons_assemble _ bt _ used (namesOfL rest1) ?_ (hkT (.done v)) hdn
                refine opOk_mk _ _ (fun _ => hterm) ?_ bl2 bl1
                intro h0
                rw [hty] at h0
                exact absurd h0 (by decide)
              · have htree : (runP now (Prog.scope name body k) used
                    (.cons (.node d cs) rest1)).2 =
                    .cons (.node ⟨d.name, d.typ, .failed, none,
                      some "NonDeterministicExecutionError", d.deadline⟩ bt)
                      (runP now (k (.failed "NonDeterministicExecutionError"))
                        (name :: used) rest1).2 := by
                  simp [runP, hg, hs, hrb, hterm]
                rw [htree]
                refine inv_cons_assemble _ bt _ used (namesOfL rest1) ?_
                  (hkT (.failed "NonDeterministicExecutionError")) hdn
                refine opOk_mk _ _ ?_ ?_ bl2 bl1
                · intro h0; simp at h0
                · intro h0
                  rw [hty] at h0
                  exact absurd h0 (by decide)
            | failed fr =>
              have htree : (runP now (Prog.scope name body k) used
                  (.cons (.node d cs) rest1)).2 =
                  .cons (.node ⟨d.name, d.typ, .failed, none, some fr, d.deadline⟩ bt)
                    (runP now (k (.failed fr)) (name :: used) rest1).2 := by
                simp [runP, hg, hs, hrb]
              rw [htree]
              refine inv_cons_assemble _ bt _ used (namesOfL rest1) ?_ (hkT (.failed fr)) hdn
              refine opOk_mk _ _ ?_ ?_ bl2 bl1
              · intro h0; simp at h0
              · intro h0
                rw [hty] at h0
                exact absurd h0 (by decide)
            | susp =>
              have htree : (runP now (Prog.scope name body k) used
                  (.cons (.node d cs) rest1)).2 =
                  .cons (.node ⟨d.name, d.typ, .running, none, none, d.deadline⟩ bt)
                    (runP now (k .susp) (name :: used) rest1).2 := by
                simp [runP, hg, hs, hrb]
              rw [htree]
              refine inv_cons_assemble _ bt _ used (namesOfL rest1) ?_ (hkT .susp) hdn
              refine opOk_mk _ _ ?_ ?_ bl2 bl1
              · intro h0; simp at h0
              · intro h0
                rw [hty] at h0
                exact absurd h0 (by decide)
          | running =>
            rcases hrb : runP now body [] cs with ⟨bo, bt⟩
            have hp := opOk_parts d cs hOk
            have hbT : InvTriple [] (namesOfL cs) bt := by
              have := ihb [] cs hp.2.2.1 hp.2.2.2 (fun n _ => List.not_mem_nil n)
              rw [hrb] at this
              simpa using this
            obtain ⟨bl1, bl2, _⟩ := hbT
            cases bo with
            | done v =>
              by_cases hterm : allTerminal bt = true
              · have htree : (runP now (Prog.scope name body k) used
                    (.cons (.node d cs) rest1)).2 =
                    .cons (.node ⟨d.name, d.typ, .completed, some v, none, d.deadline⟩ bt)
                      (runP now (k (.done v)) (name :: used) rest1).2 := by
                  simp [runP, hg, hs, hrb, hterm]
                rw [htree]
                refine inv_cons_assemble _ bt _ used (namesOfL rest1) ?_ (hkT (.done v)) hdn
                refine opOk_mk _ _ (fun _ => hterm) ?_ bl2 bl1
                intro h0
                rw [hty] at h0
                exact absurd h0 (by decide)
              · have htree : (runP now (Prog.scope name body k) used
                    (.cons (.node d cs) rest1)).2 =
                    .cons (.node ⟨d.name, d.typ, .failed, none,
                      some "NonDeterministicExecutionError", d.deadline⟩ bt)
                      (runP now (k (.failed "NonDeterministicExecutionError"))
                        (name :: used) rest1).2 := by
                  simp [runP, hg, hs, hrb, hterm]
                rw [htree]
                refine inv_cons_assemble _ bt _ used (namesOfL rest1) ?_
                  (hkT (.failed "NonDeterministicExecutionError")) hdn
                refine opOk_mk _ _ ?_ ?_ bl2 bl1
                · intro h0; simp at h0
                · intro h0
                  rw [hty] at h0
                  exact absurd h0 (by decide)
            | failed fr =>
              have htree : (runP now (Prog.scope name body k) used
                  (.cons (.node d cs) rest1)).2 =
                  .cons (.node ⟨d.name, d.typ, .failed, none, some fr, d.deadline⟩ bt)
                    (runP now (k (.failed fr)) (name :: used) rest1).2 := by
                simp [runP, hg, hs, hrb]
              rw [htree]
              refine inv_cons_assemble _ bt _ used (namesOfL rest1) ?_ (hkT (.failed fr)) hdn
              refine opOk_mk _ _ ?_ ?_ bl2 bl1
              · intro h0; simp at h0
              · intro h0
                rw [hty] at h0
                exact absurd h0 (by decide)
            | susp =>
              have htree : (runP now (Prog.scope name body k) used
                  (.cons (.node d cs) rest1)).2 =
                  .cons (.node ⟨d.name, d.typ, .running, none, none, d.deadline⟩ bt)
                    (runP now (k .susp) (name :: used) rest1).2 := by
                simp [runP, hg, hs, hrb]
              rw [htree]
              refine inv_cons_assemble _ bt _ used (namesOfL rest1) ?_ (hkT .susp) hdn
              refine opOk_mk _ _ ?_ ?_ bl2 bl1
              · intro h0; simp at h0
              · intro h0
                rw [hty] at h0
                exact absurd h0 (by decide)
        · have htree : (runP now (Prog.scope name body k) used
              (.cons (.node d cs) rest1)).2 = .cons (.node d cs) rest1 := by
            simp [runP, hg]
          rw [htree]
          exact ⟨h2, h1, fun n hn => .inl hn⟩

/-- A non-terminal status may move to any terminal status. -/
theorem statusLe_nonterminal (s s2 : Status) (h : s.isTerminal = false)
    (h2 : s2.isTerminal = true) : statusLe s s2 = true := by
  cases s <;> cases s2 <;> simp_all [Status.isTerminal, statusLe]

mutual
/-- A successful delivery into a subtree preserves names, types and
the statuses of terminal nodes, preserves the per-node invariants, and
only evolves the subtree. -/
theorem deliverOp_inv (token : String) (pay : Except String Val) (o o2 : Op)
    (h : deliverOp token pay o = .updated o2) :
    (o2.data.name = o.data.name ∧ o2.data.typ = o.data.typ) ∧
    (o.data.status.isTerminal = true → o2.data.status = o.data.status) ∧
    (opOk o = true → opOk o2 = true) ∧ evolveOp o o2 = true := by
  cases o with
  | node d cs =>
    by_cases hg : (d.name == token && d.typ == OpType.callback) = true
    · have hty : d.typ = OpType.callback := by
        have hgc := hg
        simp only [Bool.and_eq_true, beq_iff_eq] at hgc
        exact hgc.2
      cases hterm : d.status.isTerminal with
      | true => simp [deliverOp, hg, hterm] at h
      | false =>
        cases pay with
        | ok v =>
          simp only [deliverOp, hg, if_true, hterm, Bool.false_eq_true, if_false,
            DeliverRes.updated.injEq] at h
          subst h
          refine ⟨⟨rfl, rfl⟩, ?_, ?_, ?_⟩
          · intro h0
            simp only [Op.data] at h0
            rw [h0] at hterm
            simp at hterm
          · intro hOk
            have hp := opOk_parts d cs hOk
            have hcs : cs = .nil := hp.2.1 hty
            subst hcs
            exact opOk_mk _ _ (fun _ => rfl) (fun _ => rfl) rfl rfl
          · simp only [evolveOp, Op.data]
            simp [statusLe_nonterminal d.status .completed hterm rfl, evolveL_refl]
        | error r =>
          simp only [deliverOp, hg, if_true, hterm, Bool.false_eq_true, if_false,
            DeliverRes.updated.injEq] at h
          subst h
          refine ⟨⟨rfl, rfl⟩, ?_, ?_, ?_⟩
          · intro h0
            simp only [Op.data] at h0
            rw [h0] at hterm
            simp at hterm
          · intro hOk
            have hp := opOk_parts d cs hOk
            refine opOk_mk _ _ ?_ (fun _ => hp.2.1 hty) hp.2.2.1 hp.2.2.2
            intro h0; simp at h0
          · simp only [evolveOp, Op.data]
            simp [statusLe_nonterminal d.status .failed hterm rfl, evolveL_refl]
    · simp only [deliverOp, hg, if_false, Bool.false_eq_true] at h
      cases hd : deliverL token pay cs with
      | updated cs2 =>
        rw [hd] at h
        simp only [DeliverRes.updated.injEq] at h
        subst h
        have hih := deliverL_inv token pay cs cs2 hd
        refine ⟨⟨rfl, rfl⟩, fun _ => rfl, ?_, ?_⟩
        · intro hOk
          have hp := opOk_parts d cs hOk
          refine opOk_mk _ _ ?_ ?_ ?_ ?_
          · intro h0; exact hih.2.1 (hp.1 h0)
          · intro h0
            exfalso
            rw [hp.2.1 h0] at hd
            simp [deliverL] at hd
          · rw [hih.1]; exact hp.2.2.1
          · exact hih.2.2.1 hp.2.2.2
        · simp only [evolveOp, Op.data]
          simp [statusLe_refl, hih.2.2.2]
      | dup => rw [hd] at h; simp at h
      | missing => rw [hd] at h; simp at h
/-- A successful delivery into a forest preserves top-level names,
keeps an all-terminal forest all-terminal, preserves the per-node
invariants, and only evolves the forest. -/
theorem deliverL_inv (token : String) (pay : Except String Val) (l l2 : OpList)
    (h : deliverL token pay l = .updated l2) :
    namesOfL l2 = namesOfL l ∧
    (allTerminal l = true → allTerminal l2 = true) ∧
    (listOk l = true → listOk l2 = true) ∧ evolveL l l2 = true := by
  cases l with
  | nil => simp [deliverL] at h
  | cons o r =>
    simp only [deliverL] at h
    cases ho : deliverOp token pay o with
    | updated o2 =>
      rw [ho] at h
      simp only [DeliverResL.updated.injEq] at h
      subst h
      have hih := deliverOp_inv token pay o o2 ho
      cases o with
      | node d cs =>
        cases o2 with
        | node d2 cs2 =>
          have hnm : d2.name = d.name := hih.1.1
          refine ⟨?_, ?_, ?_, ?_⟩
          · simp [namesOfL, hnm]
          · intro hat
            simp only [allTerminal, Bool.and_eq_true] at hat ⊢
            refine ⟨?_, hat.2⟩
            have := hih.2.1 hat.1
            simp only [Op.data] at this
            rw [this]
            exact hat.1
          · intro hok
            simp only [listOk, Bool.and_eq_true] at hok ⊢
            exact ⟨hih.2.2.1 hok.1, hok.2⟩
          · simp only [evolveL, Bool.and_eq_true]
            exact ⟨hih.2.2.2, evolveL_refl r⟩
    | dup => rw [ho] at h; simp at h
    | missing =>
      rw [ho] at h
      cases hr : deliverL token pay r with
      | updated r2 =>
        rw [hr] at h
        simp only [DeliverResL.updated.injEq] at h
        subst h
        have hih := deliverL_inv token pay r r2 hr
        cases o with
        | node d cs =>
          refine ⟨?_, ?_, ?_, ?_⟩
          · simp [namesOfL, hih.1]
          · intro hat
            simp only [allTerminal, Bool.and_eq_true] at hat ⊢
            exact ⟨hat.1, hih.2.1 hat.2⟩
          · intro hok
            simp only [listOk, Bool.and_eq_true] at hok ⊢
            exact ⟨hok.1, hih.2.2.1 hok.2⟩
          · simp only [evolveL, Bool.and_eq_true]
            exact ⟨evolveOp_refl _, hih.2.2.2⟩
      | dup => rw [hr] at h; simp at h
      | missing => rw [hr] at h; simp at h
end

/-- C5: every engine operation preserves the tree invariants.  For any
handler program and any execution whose tree satisfies the invariants
— statuses only move forward along PENDING → RUNNING → {COMPLETED,
FAILED}, no parent is COMPLETED while a child is non-terminal, and
sibling names are unique — an engine pass and any accepted callback
delivery yield a tree that still satisfies them, and the pass/delivery
only evolves the tree (names and types at recorded positions
unchanged, statuses moving only forward). -/
theorem engine_operations_preserve_invariants (now : Nat) (p : Prog) (e : Execution)
    (hInv : treeInv e.tree = true) :
    treeInv (runPass now p e).tree = true ∧
    evolveL e.tree (runPass now p e).tree = true ∧
    ∀ (token : String) (pay : Except String Val) (e2 : Execution),
      sendCallback token pay e = .ok e2 →
      treeInv e2.tree = true ∧ evolveL e.tree e2.tree = true := by
  have hparts : nodupB (namesOfL e.tree) = true ∧ listOk e.tree = true := by
    have hc := hInv
    simp only [treeInv, Bool.and_eq_true] at hc
    exact hc
  have hpass : treeInv (runPass now p e).tree = true ∧
      evolveL e.tree (runPass now p e).tree = true := by
    cases hst : e.status with
    | running =>
      have htr : (runPass now p e).tree = (runP now p [] e.tree).2 := by
        rcases ho : runP now p [] e.tree with ⟨o, t⟩
        cases o <;> simp [runPass, hst, ho]
      rw [htr]
      constructor
      · have hp := runP_inv now p [] e.tree hparts.1 hparts.2
          (fun n _ => List.not_mem_nil n)
        simp only [treeInv, Bool.and_eq_true]
        exact ⟨hp.2.1, hp.1⟩
      · exact runP_evolve now p [] e.tree
    | succeeded =>
      have heq : runPass now p e = e := by simp [runPass, hst]
      rw [heq]
      exact ⟨hInv, evolveL_refl _⟩
    | failed =>
      have heq : runPass now p e = e := by simp [runPass, hst]
      rw [heq]
      exact ⟨hInv, evolveL_refl _⟩
  refine ⟨hpass.1, hpass.2, ?_⟩
  intro token pay e2 h
  simp only [sendCallback] at h
  cases hd : deliverL token pay e.tree with
  | updated t =>
    rw [hd] at h
    simp only [Except.ok.injEq] at h
    subst h
    have hih := deliverL_inv token pay e.tree t hd
    constructor
    · simp only [treeInv, Bool.and_eq_true]
      exact ⟨by rw [hih.1]; exact hparts.1, hih.2.2.1 hparts.2⟩
    · exact hih.2.2.2
  | dup => rw [hd] at h; simp at h
  | missing => rw [hd] at h; simp at h

/-- C1: the `ParallelResult` of `context.parallel` lists per-branch
results in the order the branch functions were supplied, regardless of
the order in which the external callback deliveries resolve the
branches: for the three-branch example handler, all six delivery
orders — in particular 2, 1, 3 — produce the result list
`[branch-1 result, branch-2 result, branch-3 result]`. -/
theorem parallel_results_follow_input_order (v1 v2 v3 : Val) :
    (scenarioRun v1 v2 v3).result = expectedResult v1 v2 v3 ∧
    (scenarioRun v1 v2 v3).status = .succeeded ∧
    (runDeliveries handler 1
      [("api-call-1", .ok v1), ("api-call-2", .ok v2), ("api-call-3", .ok v3)]
      startedExec).result = expectedResult v1 v2 v3 ∧
    (runDeliveries handler 1
      [("api-call-1", .ok v1), ("api-call-3", .ok v3), ("api-call-2", .ok v2)]
      startedExec).result = expectedResult v1 v2 v3 ∧
    (runDeliveries handler 1
      [("api-call-2", .ok v2), ("api-call-3", .ok v3), ("api-call-1", .ok v1)]
      startedExec).result = expectedResult v1 v2 v3 ∧
    (runDeliveries handler 1
      [("api-call-3", .ok v3), ("api-call-1", .ok v1), ("api-call-2", .ok v2)]
      startedExec).result = expectedResult v1 v2 v3 ∧
    (runDeliveries handler 1
      [("api-call-3", .ok v3), ("api-call-2", .ok v2), ("api-call-1", .ok v1)]
      startedExec).result = expectedResult v1 v2 v3 :=
  ⟨rfl, rfl, rfl, rfl, rfl, rfl, rfl⟩

/-- C2: for the example handler with the integration test's JSON
payloads delivered in order 2, 1, 3, the execution succeeds with final
result `{"results": [result1, result2, result3], "allCompleted":
true}`, and the recorded tree holds one CONTEXT node
(`parallel_callbacks`) with exactly three child CONTEXT nodes, each
holding exactly one CALLBACK child. -/
theorem end_to_end_concurrency_scenario :
    (scenarioRun (.vstr payload1) (.vstr payload2) (.vstr payload3)).status = .succeeded ∧
    (scenarioRun (.vstr payload1) (.vstr payload2) (.vstr payload3)).result =
      expectedResult (.vstr payload1) (.vstr payload2) (.vstr payload3) ∧
    OpList.length (scenarioRun (.vstr payload1) (.vstr payload2) (.vstr payload3)).tree = 1 ∧
    (findName (scenarioRun (.vstr payload1) (.vstr payload2) (.vstr payload3)).tree
        "parallel_callbacks").map
      (fun o => (o.data.typ, OpList.length o.children, branchShape o.children)) =
      some (OpType.context, 3, true) :=
  ⟨rfl, rfl, rfl, rfl⟩

/-- C7: a callback created with a 30-second timeout and no external
delivery carries a persisted absolute deadline of 30 seconds past its
creation instant; an engine pass strictly before the deadline changes
nothing (no timeout earlier than 30 seconds); a pass at or after the
deadline fails the callback operation with a timeout reason exactly
once, and the execution fails with that timeout reason; afterwards the
terminal execution is unchanged by further passes. -/
theorem callback_timeout_respects_deadline (t0 tEarly tLate tAfter : Nat)
    (hEarly : tEarly < t0 + 30) (hLate : t0 + 30 ≤ tLate) :
    ((findName (runPass t0 timeoutProbe Execution.init).tree "api-call-1").map
        (fun o => o.data.deadline) = some (some (t0 + 30))) ∧
    runPass tEarly timeoutProbe (runPass t0 timeoutProbe Execution.init) =
      runPass t0 timeoutProbe Execution.init ∧
    (runPass tLate timeoutProbe (runPass t0 timeoutProbe Execution.init)).status =
      .failed ∧
    (runPass tLate timeoutProbe (runPass t0 timeoutProbe Execution.init)).failureReason =
      some "TimeoutError" ∧
    ((findName (runPass tLate timeoutProbe (runPass t0 timeoutProbe Execution.init)).tree
        "api-call-1").map (fun o => (o.data.status, o.data.failure)) =
      some (Status.failed, some "TimeoutError")) ∧
    runPass tAfter timeoutProbe
        (runPass tLate timeoutProbe (runPass t0 timeoutProbe Execution.init)) =
      runPass tLate timeoutProbe (runPass t0 timeoutProbe Execution.init) := by
  have hne : ¬ (t0 + 30 ≤ tEarly) := by omega
  have h1 : runPass t0 timeoutProbe Execution.init =
      ⟨.running, none, none,
        .cons (.node ⟨"api-call-1", .callback, .pending, none, none, some (t0 + 30)⟩ .nil) .nil⟩ :=
    rfl
  have h2 : runPass tEarly timeoutProbe (runPass t0 timeoutProbe Execution.init) =
      runPass t0 timeoutProbe Execution.init := by
    rw [h1]
    simp [runPass, runP, timeoutProbe, hne]
  have h3 : runPass tLate timeoutProbe (runPass t0 timeoutProbe Execution.init) =
      ⟨.failed, none, some "TimeoutError",
        .cons (.node ⟨"api-call-1", .callback, .failed, none, some "TimeoutError",
          some (t0 + 30)⟩ .nil) .nil⟩ := by
    rw [h1]
    simp [runPass, runP, timeoutProbe, hLate]
  refine ⟨rfl, h2, ?_, ?_, ?_, ?_⟩
  · rw [h3]
  · rw [h3]
  · rw [h3]; rfl
  · rw [h3]; rfl

/-- Witness for `callback_timeout_respects_deadline` at creation
instant 0, an early pass at 29, the timeout pass at 30 and a final
pass at 100. -/
theorem callback_timeout_respects_deadline_witness :
    (29 < 0 + 30 ∧ 0 + 30 ≤ 30) ∧
    (((findName (runPass 0 timeoutProbe Execution.init).tree "api-call-1").map
        (fun o => o.data.deadline) = some (some (0 + 30))) ∧
    runPass 29 timeoutProbe (runPass 0 timeoutProbe Execution.init) =
      runPass 0 timeoutProbe Execution.init ∧
    (runPass 30 timeoutProbe (runPass 0 timeoutProbe Execution.init)).status =
      .failed ∧
    (runPass 30 timeoutProbe (runPass 0 timeoutProbe Execution.init)).failureReason =
      some "TimeoutError" ∧
    ((findName (runPass 30 timeoutProbe (runPass 0 timeoutProbe Execution.init)).tree
        "api-call-1").map (fun o => (o.data.status, o.data.failure)) =
      some (Status.failed, some "TimeoutError")) ∧
    runPass 100 timeoutProbe
        (runPass 30 timeoutProbe (runPass 0 timeoutProbe Execution.init)) =
      runPass 30 timeoutProbe (runPass 0 timeoutProbe Execution.init)) :=
  ⟨⟨by omega, by omega⟩,
   callback_timeout_respects_deadline 0 29 30 100 (by omega) (by omega)⟩

/-- C4: when several branches of a parallel invocation fail, the
aggregate is FAILED and carries the failure of the lowest-indexed
failing branch — branch 2 fails first in wall-clock order, branch 1
fails later, yet the reported failure is branch 1's — and every
branch's Operation reaches a terminal state before the parent CONTEXT
node is marked terminal: while branch 2 (and later branch 1) are
already FAILED, the parent stays RUNNING until branch 3 is terminal,
and in the final tree the parent is FAILED with all three branch
operations terminal. -/
theorem first_indexed_branch_failure_wins (r1 r2 : String) (v3 : Val) :
    (failTwoScenario r1 r2 v3).status = .failed ∧
    (failTwoScenario r1 r2 v3).failureReason = some r1 ∧
    ((findName (failTwoScenario r1 r2 v3).tree "parallel_callbacks").map
      (fun o => (o.data.status, o.data.failure, allTerminal o.children)) =
      some (Status.failed, some r1, true)) ∧
    (failTwoAfterFirst r2).status = .running ∧
    ((findName (failTwoAfterFirst r2).tree "parallel_callbacks").map
      (fun o => (o.data.status, statusOf o.children (branchName 1))) =
      some (Status.running, some Status.failed)) ∧
    (failTwoAfterSecond r1 r2).status = .running ∧
    ((findName (failTwoAfterSecond r1 r2).tree "parallel_callbacks").map
      (fun o => (o.data.status, statusOf o.children (branchName 0),
                 statusOf o.children (branchName 1), statusOf o.children (branchName 2))) =
      some (Status.running, some Status.failed, some Status.failed, some Status.running)) :=
  ⟨rfl, rfl, rfl, rfl, rfl, rfl, rfl⟩

/-- Witness for `engine_operations_preserve_invariants` at the
suspended example execution. -/
theorem engine_operations_preserve_invariants_witness :
    treeInv startedExec.tree = true ∧
    (treeInv (runPass 1 handler startedExec).tree = true ∧
     evolveL startedExec.tree (runPass 1 handler startedExec).tree = true ∧
     ∀ (token : String) (pay : Except String Val) (e2 : Execution),
       sendCallback token pay startedExec = .ok e2 →
       treeInv e2.tree = true ∧ evolveL startedExec.tree e2.tree = true) :=
  ⟨rfl, engine_operations_preserve_invariants 1 handler startedExec rfl⟩

/-- C8: every error response of the control-plane boundary,
independent of route, has JSON content type and the body
`{"Type": <exception class name>, "message": <human text>}`, and the
status code is determined by the exception kind: 400 invalid
parameter, 404 resource not found and unknown route, 409 illegal
state, 500 serialization error or uncaught exception, 503 internal
service unavailability. -/
theorem error_responses_are_uniform (k : ExceptionKind) (msg cls : String) :
    (HTTPResponse.create_error_from_exception k msg).headers =
      [("Content-Type", "application/json")] ∧
    (HTTPResponse.create_error_from_exception k msg).body =
      .vdict [("Type", .vstr k.typeName), ("message", .vstr msg)] ∧
    (HTTPResponse.create_error_from_exception k msg).status_code = k.statusCode ∧
    (HTTPResponse.create_error_from_exception .invalidParameterValue msg).status_code = 400 ∧
    (HTTPResponse.create_error_from_exception .resourceNotFound msg).status_code = 404 ∧
    (HTTPResponse.create_error_from_exception .unknownRoute msg).status_code = 404 ∧
    (HTTPResponse.create_error_from_exception .illegalState msg).status_code = 409 ∧
    (HTTPResponse.create_error_from_exception .serializationError msg).status_code = 500 ∧
    (HTTPResponse.create_error_from_exception (.uncaught cls) msg).status_code = 500 ∧
    (HTTPResponse.create_error_from_exception .internalServiceUnavailable msg).status_code
      = 503 :=
  ⟨rfl, rfl, rfl, rfl, rfl, rfl, rfl, rfl, rfl, rfl⟩

/-- C9: requests to the callback-delivery routes are handed to the
endpoint handler as uninterpreted raw bytes — byte-for-byte the bytes
the external caller sent, not through the JSON decoding used by every
other route — while the non-byte routes go through the decoder. -/
theorem callback_route_payload_raw_bytes (decode : List Nat → Option Val)
    (body : List Nat) :
    buildRequest decode .callbackSuccess body = .fromRawBytes body ∧
    buildRequest decode .callbackFailure body = .fromRawBytes body ∧
    (buildRequest decode .callbackSuccess body).rawBody = some body ∧
    (buildRequest decode .callbackFailure body).rawBody = some body ∧
    buildRequest decode .startExecution body = .fromParsed (decode body) ∧
    buildRequest decode .getDurableExecution body = .fromParsed (decode body) ∧
    buildRequest decode .health body = .fromParsed (decode body) :=
  ⟨rfl, rfl, rfl, rfl, rfl, rfl, rfl⟩

/-- C10: `WebServiceConfig()` defaults to host `localhost`, port 5000,
log level `logging.INFO` (20) and a 10 MiB maximum request size, and
the configuration is immutable: assigning to a field raises an
`AttributeError` instead of mutating it, for every instance and every
field. -/
theorem web_service_config_defaults_and_frozen :
    defaultWebServiceConfig.host = "localhost" ∧
    defaultWebServiceConfig.port = 5000 ∧
    defaultWebServiceConfig.log_level = logging_INFO ∧
    logging_INFO = 20 ∧
    defaultWebServiceConfig.max_request_size = 10 * 1024 * 1024 ∧
    ∀ (c : WebServiceConfig) (f : String) (v : Nat),
      WebServiceConfig.setAttr c f v =
        .error "AttributeError: cannot assign to field of frozen dataclass" :=
  ⟨rfl, rfl, rfl, rfl, rfl, fun _ _ _ => rfl⟩
